import Mathlib

/-!
Shallow embedding of `src/PROLB3.py`: a task queue (`TaskManager`) backed by a
SQLite table (`DBManager`).  Statuses are the free-text strings used by the
source.  Every `DBManager` method wraps its SQL in `try/except sqlite3.Error`
and on an error returns a sentinel (`None`, `False`, `[]`) instead of raising;
we model a possible underlying storage error with an explicit `fail : Bool`
flag per operation.  The nondeterministic Bernoulli draw
(`np.random.rand() < 0.8`) in `process_next_task` is modelled by an explicit
Boolean outcome `ok`.
-/

/-- Status string 'Очікує' (Pending). -/
def stPending : String := "Очікує"

/-- Status string 'В процесі' (InProgress). -/
def stInProgress : String := "В процесі"

/-- Status string 'Виконано' (Done). -/
def stDone : String := "Виконано"

/-- Status string 'Помилка' (Failed). -/
def stFailed : String := "Помилка"

/-- One row of the `tasks` table: id, user, description, status, timestamp. -/
structure TaskRec where
  id : Nat
  user : String
  description : String
  status : String
  timestamp : Nat
deriving Repr, DecidableEq

/-- The SQLite database state: the `tasks` table rows (kept in ascending id
order, as every insert uses a fresh `AUTOINCREMENT` id larger than all previous
ones, so the list order agrees with `ORDER BY id`) together with the
`AUTOINCREMENT` counter assigning the next rowid. -/
structure DB where
  rows : List TaskRec
  nextId : Nat
deriving Repr, DecidableEq

/-- Structural well-formedness of a SQLite `tasks` table: ids are strictly
increasing (primary key, assigned in ascending order) and below the
`AUTOINCREMENT` counter. -/
def DB.WF (db : DB) : Prop :=
  (db.rows.map TaskRec.id).Pairwise (· < ·) ∧ ∀ t ∈ db.rows, t.id < db.nextId

instance (db : DB) : Decidable db.WF := by
  unfold DB.WF; infer_instance

/-- `DBManager.add_task`: `INSERT INTO tasks (user, description, status)` then
return `lastrowid`; on a caught `sqlite3.Error` returns `None`.  `now` models
the `CURRENT_TIMESTAMP` default of the `timestamp` column. -/
def DBManager.add_task (db : DB) (user description status : String) (now : Nat)
    (fail : Bool) : DB × Option Nat :=
  if fail then (db, none)
  else
    ({ rows := db.rows ++ [⟨db.nextId, user, description, status, now⟩],
       nextId := db.nextId + 1 }, some db.nextId)

/-- The row list after `UPDATE tasks SET status = ? WHERE id = ?`. -/
def updRows (rows : List TaskRec) (id : Nat) (st : String) : List TaskRec :=
  rows.map fun t => if t.id == id then { t with status := st } else t

/-- `DBManager.update_task_status`: `UPDATE tasks SET status = ? WHERE id = ?`,
returning `rowcount > 0`; on a caught `sqlite3.Error` returns `False`. -/
def DBManager.update_task_status (db : DB) (id : Nat) (st : String)
    (fail : Bool) : DB × Bool :=
  if fail then (db, false)
  else ({ db with rows := updRows db.rows id st },
        db.rows.any fun t => t.id == id)

/-- `DBManager.get_task_by_id`: `SELECT ... WHERE id = ?` with `fetchone`; on a
caught `sqlite3.Error` returns `None`. -/
def DBManager.get_task_by_id (db : DB) (id : Nat) (fail : Bool) : Option TaskRec :=
  if fail then none
  else db.rows.find? fun t => t.id == id

/-- `DBManager.get_all_tasks`: `SELECT ... FROM tasks ORDER BY id` (the row
list is maintained in ascending id order, see `DB`); on a caught
`sqlite3.Error` returns the empty list. -/
def DBManager.get_all_tasks (db : DB) (fail : Bool) : List TaskRec :=
  if fail then [] else db.rows

/-- The in-memory state of a `TaskManager`: the database plus the
`collections.deque` of task ids (head = front of the deque). -/
structure TMState where
  db : DB
  task_queue : List Nat
deriving Repr, DecidableEq

/-- `TaskManager._load_pending_tasks_to_queue`: append to the queue the id of
every task whose status is 'Очікує' or 'В процесі', in table order. -/
def TaskManager.load_pending (db : DB) (fail : Bool) : List Nat :=
  ((DBManager.get_all_tasks db fail).filter fun t =>
      t.status == stPending || t.status == stInProgress).map TaskRec.id

/-- `TaskManager.__init__` on a database: build the queue from the stored
pending/in-progress tasks. -/
def TaskManager.init (db : DB) (fail : Bool) : TMState :=
  { db := db, task_queue := TaskManager.load_pending db fail }

/-- `TaskManager.add_task`: insert the task with status 'Очікує'; if the insert
returned an id (no storage error), append it to the queue.  The Python method
itself returns `None` in all cases, so the model returns only the new state. -/
def TaskManager.add_task (s : TMState) (user description : String) (now : Nat)
    (fail : Bool) : TMState :=
  match DBManager.add_task s.db user description stPending now fail with
  | (db2, some tid) => { db := db2, task_queue := s.task_queue ++ [tid] }
  | (db2, none) => { db := db2, task_queue := s.task_queue }

/-- Environment of one `process_next_task` call: whether each of the three
database operations hits a storage error, and the Bernoulli outcome `ok`
(`np.random.rand() < 0.8`). -/
structure PNEnv where
  failGet : Bool
  failUpd1 : Bool
  failUpd2 : Bool
  ok : Bool
deriving Repr, DecidableEq

/-- `TaskManager.process_next_task`: if the queue is empty return `False`;
otherwise `popleft` the head id and look it up.  If found, set its status to
'В процесі', then to 'Виконано' or 'Помилка' according to the draw, and return
`True`; if not found, return `False` (the id stays popped). -/
def TaskManager.process_next_task (s : TMState) (env : PNEnv) :
    TMState × Bool :=
  match s.task_queue with
  | [] => (s, false)
  | task_id :: rest =>
    match DBManager.get_task_by_id s.db task_id env.failGet with
    | some _ =>
      let db1 := (DBManager.update_task_status s.db task_id stInProgress
        env.failUpd1).1
      let newStatus := if env.ok then stDone else stFailed
      let db2 := (DBManager.update_task_status db1 task_id newStatus
        env.failUpd2).1
      ({ db := db2, task_queue := rest }, true)
    | none => ({ db := s.db, task_queue := rest }, false)

/-- One step of `TaskManager.generate_report`'s classification loop over the
report accumulator `(processed_list, unprocessed_list)`. -/
def reportStep (acc : List TaskRec × List TaskRec) (t : TaskRec) :
    List TaskRec × List TaskRec :=
  if t.status == stDone then (acc.1 ++ [t], acc.2)
  else if t.status == stFailed then (acc.1, acc.2 ++ [t])
  else if t.status == stPending || t.status == stInProgress then
    (acc.1, acc.2 ++ [t])
  else acc

/-- `TaskManager.generate_report`: read all tasks and split them into
`processed_list` ('Виконано') and `unprocessed_list` ('Помилка', 'Очікує',
'В процесі'). -/
def TaskManager.generate_report (db : DB) (fail : Bool) :
    List TaskRec × List TaskRec :=
  (DBManager.get_all_tasks db fail).foldl reportStep ([], [])

/-- An externally driven call on a `TaskManager`, with its environment:
either `add_task` (with its insert's timestamp and failure flag) or
`process_next_task` (with its `PNEnv`). -/
inductive Op where
  | add (user description : String) (now : Nat) (fail : Bool)
  | pnext (env : PNEnv)
deriving Repr, DecidableEq

/-- Apply one call to the state (discarding the Python return values). -/
def applyOp (s : TMState) : Op → TMState
  | .add u d now fail => TaskManager.add_task s u d now fail
  | .pnext env => (TaskManager.process_next_task s env).1

/-- Run a sequence of calls. -/
def runOps (s : TMState) (ops : List Op) : TMState :=
  ops.foldl applyOp s

/-- The empty system: fresh database (AUTOINCREMENT starts at rowid 1) and
empty queue. -/
def initState : TMState :=
  { db := { rows := [], nextId := 1 }, task_queue := [] }

/-- The status the Store records for id `i` (`none` when no row has id `i`). -/
def dbStatus (db : DB) (i : Nat) : Option String :=
  (db.rows.find? fun t => t.id == i).map TaskRec.status

/-- A status under which `_load_pending_tasks_to_queue` (re-)admits a task. -/
def pendingish (st : String) : Bool :=
  st == stPending || st == stInProgress

/-- Ids of the rows whose status is 'Очікує' or 'В процесі', in table order. -/
def pendingIds (db : DB) : List Nat :=
  (db.rows.filter fun t => pendingish t.status).map TaskRec.id

/-! ### Helper lemmas about the row operations -/

theorem updRows_cons (a : TaskRec) (l : List TaskRec) (i : Nat) (st : String) :
    updRows (a :: l) i st =
      (if a.id == i then { a with status := st } else a) :: updRows l i st := rfl

theorem updRows_id_map (rows : List TaskRec) (i : Nat) (st : String) :
    (updRows rows i st).map TaskRec.id = rows.map TaskRec.id := by
  induction rows with
  | nil => rfl
  | cons a l ih =>
    by_cases h : a.id == i <;> simp [updRows_cons, h, ih]

theorem find?_updRows_self (rows : List TaskRec) (i : Nat) (st : String) :
    (updRows rows i st).find? (fun t => t.id == i) =
      (rows.find? fun t => t.id == i).map fun t => { t with status := st } := by
  induction rows with
  | nil => rfl
  | cons a l ih =>
    cases h : a.id == i
    · simp only [updRows_cons, h, Bool.false_eq_true, if_false,
        List.find?_cons, ih]
    · simp only [updRows_cons, h, if_true, List.find?_cons, ih]
      simp [h]

theorem find?_updRows_other (rows : List TaskRec) (i j : Nat) (st : String)
    (hne : j ≠ i) :
    (updRows rows i st).find? (fun t => t.id == j) =
      rows.find? fun t => t.id == j := by
  induction rows with
  | nil => rfl
  | cons a l ih =>
    cases h : a.id == i
    · cases hj : a.id == j <;> simp [updRows_cons, h, hj, List.find?_cons, ih]
    · have hid : a.id = i := by simpa using h
      have hj : (a.id == j) = false := by
        rw [hid]
        exact beq_eq_false_iff_ne.mpr (Ne.symm hne)
      simp [updRows_cons, h, hj, List.find?_cons, ih]

theorem dbStatus_update_self (db : DB) (i : Nat) (st : String) :
    dbStatus (DBManager.update_task_status db i st false).1 i =
      (dbStatus db i).map fun _ => st := by
  simp only [dbStatus, DBManager.update_task_status, if_neg Bool.false_ne_true,
    find?_updRows_self, Option.map_map]
  rfl

theorem dbStatus_update_other (db : DB) (i j : Nat) (st : String) (fail : Bool)
    (hne : j ≠ i) :
    dbStatus (DBManager.update_task_status db i st fail).1 j = dbStatus db j := by
  cases fail with
  | true => rfl
  | false =>
    simp only [dbStatus, DBManager.update_task_status, if_neg Bool.false_ne_true,
      find?_updRows_other _ _ _ _ hne]

theorem find?_rows_append (l₁ l₂ : List TaskRec) (p : TaskRec → Bool) :
    (l₁ ++ l₂).find? p = (l₁.find? p).or (l₂.find? p) :=
  List.find?_append

theorem find?_none_of_lt (db : DB) (hwf : db.WF) :
    (db.rows.find? fun t => t.id == db.nextId) = none := by
  rw [List.find?_eq_none]
  intro t ht
  have := hwf.2 t ht
  simp only [beq_iff_eq]
  omega

/-! ### Claim C1 -/

/-- A state with one pending task (id 1) at the head of the FIFO. -/
def c1cexState : TMState :=
  { db := { rows := [⟨1, "u", "d", stPending, 0⟩], nextId := 2 },
    task_queue := [1] }

/-- Claim C1 counterexample: a Store failure during `process_next` (the read
inside `get_task_by_id` hits a storage error, which the source catches and
turns into `None`) does mutate the FIFO — the head id 1 is popped before the
failing read and is not restored, so the queue goes from `[1]` to `[]`.  The
claim that "the FIFO is not mutated by that failed call" is therefore false. -/
theorem c1_counterexample :
    (TaskManager.process_next_task c1cexState ⟨true, false, false, true⟩).1.task_queue
      ≠ c1cexState.task_queue ∧
    (TaskManager.process_next_task c1cexState ⟨true, false, false, true⟩).1.task_queue
      = [] ∧
    c1cexState.task_queue = [1] := by decide

/-- Claim C1 (amended): on a failed Store insert, `add_task` performs no
enqueue and leaves the whole state unchanged; the Store failure does not raise
to the caller — `DBManager.add_task` reports it with the sentinel `none`; and
a Store read failure during `process_next` happens after the dequeue, so the
popped head is removed from the FIFO (not re-enqueued), the Store is left
unwritten, and the call returns the `false` sentinel. -/
theorem c1_failure_semantics (s : TMState) (u d : String) (now : Nat)
    (h : Nat) (rest : List Nat) (env : PNEnv)
    (hq : s.task_queue = h :: rest) (hg : env.failGet = true) :
    TaskManager.add_task s u d now true = s ∧
    DBManager.add_task s.db u d stPending now true = (s.db, none) ∧
    TaskManager.process_next_task s env =
      ({ db := s.db, task_queue := rest }, false) := by
  refine ⟨rfl, rfl, ?_⟩
  unfold TaskManager.process_next_task
  rw [hq]
  simp [DBManager.get_task_by_id, hg]

/-- Witness for `c1_failure_semantics` at a concrete state. -/
theorem c1_failure_semantics_witness :
    TaskManager.add_task c1cexState "u2" "d2" 7 true = c1cexState ∧
    DBManager.add_task c1cexState.db "u2" "d2" stPending 7 true =
      (c1cexState.db, none) ∧
    TaskManager.process_next_task c1cexState ⟨true, true, false, true⟩ =
      ({ db := c1cexState.db, task_queue := [] }, false) :=
  c1_failure_semantics c1cexState "u2" "d2" 7 1 [] ⟨true, true, false, true⟩ rfl rfl

/-! ### Claim C2 -/

/-- Claim C2: when the FIFO head `h` has no row in the Store, `process_next`
pops `h`, returns the "not found" outcome `false` as an ordinary value (the
model is a total function — the source catches every `sqlite3.Error`, and this
branch raises nothing), does not re-enqueue `h`, and performs no Store write:
the database is unchanged and the queue is exactly the former tail, so the
caller can go on and process the next id. -/
theorem c2_missing_task (s : TMState) (env : PNEnv) (h : Nat)
    (rest : List Nat) (hq : s.task_queue = h :: rest)
    (hmiss : (s.db.rows.find? fun t => t.id == h) = none) :
    TaskManager.process_next_task s env =
      ({ db := s.db, task_queue := rest }, false) := by
  unfold TaskManager.process_next_task
  rw [hq]
  cases hg : env.failGet <;> simp [DBManager.get_task_by_id, hg, hmiss]

/-- A state whose FIFO references id 5, absent from the Store. -/
def c2State : TMState :=
  { db := { rows := [⟨1, "a", "b", stDone, 0⟩], nextId := 2 },
    task_queue := [5, 1] }

/-- Witness for `c2_missing_task` at a concrete state. -/
theorem c2_missing_task_witness :
    TaskManager.process_next_task c2State ⟨false, false, false, true⟩ =
      ({ db := c2State.db, task_queue := [1] }, false) :=
  c2_missing_task c2State ⟨false, false, false, true⟩ 5 [1] rfl (by decide)

/-! ### Claim C7 -/

/-- Claim C7: a successful `add_task u d` (the Store insert commits) returns
the fresh id `db.nextId`, and `get_task_by_id` on that id then returns a row
whose user is exactly `u`, whose description is exactly `d`, and whose status
is 'Очікує' (Pending). -/
theorem c7_round_trip (db : DB) (u d : String) (now : Nat) (hwf : db.WF) :
    (DBManager.add_task db u d stPending now false).2 = some db.nextId ∧
    DBManager.get_task_by_id (DBManager.add_task db u d stPending now false).1
        db.nextId false =
      some ⟨db.nextId, u, d, stPending, now⟩ := by
  refine ⟨rfl, ?_⟩
  simp only [DBManager.get_task_by_id, DBManager.add_task,
    if_neg Bool.false_ne_true]
  rw [find?_rows_append, find?_none_of_lt db hwf]
  simp

/-- Witness for `c7_round_trip` on a nonempty store. -/
theorem c7_round_trip_witness :
    (DBManager.add_task ⟨[⟨1, "a", "b", stDone, 0⟩], 2⟩ "UserA"
        "Надіслати звіт" stPending 9 false).2 = some 2 ∧
    DBManager.get_task_by_id
        (DBManager.add_task ⟨[⟨1, "a", "b", stDone, 0⟩], 2⟩ "UserA"
          "Надіслати звіт" stPending 9 false).1 2 false =
      some ⟨2, "UserA", "Надіслати звіт", stPending, 9⟩ :=
  c7_round_trip ⟨[⟨1, "a", "b", stDone, 0⟩], 2⟩ "UserA" "Надіслати звіт" 9
    (by decide)

/-! ### Claim C8 -/

/-- Claim C8: `process_next` on an empty FIFO returns the "empty" outcome
`false` without raising (the source prints and returns) and performs no Store
write at all: the returned state is the input state, every row included. -/
theorem c8_empty_queue_noop (s : TMState) (env : PNEnv)
    (hq : s.task_queue = []) :
    TaskManager.process_next_task s env = (s, false) := by
  unfold TaskManager.process_next_task
  rw [hq]

/-- Witness for `c8_empty_queue_noop` on the empty system. -/
theorem c8_empty_queue_noop_witness :
    TaskManager.process_next_task initState ⟨false, false, false, false⟩ =
      (initState, false) :=
  c8_empty_queue_noop initState ⟨false, false, false, false⟩ rfl

/-! ### Claim C10 -/

/-- Claim C10: the Store applies no validation to its text fields.  For every
pair of strings — the empty string included — a committed insert stores
exactly those values with status 'Очікує' and returns the fresh id
`db.nextId`, an id no existing row carries. -/
theorem c10_insert_no_validation (db : DB) (u d : String) (now : Nat)
    (hwf : db.WF) :
    DBManager.add_task db u d stPending now false =
      ({ rows := db.rows ++ [⟨db.nextId, u, d, stPending, now⟩],
         nextId := db.nextId + 1 }, some db.nextId) ∧
    db.nextId ∉ db.rows.map TaskRec.id := by
  refine ⟨rfl, ?_⟩
  simp only [List.mem_map, not_exists, not_and]
  intro t ht
  have := hwf.2 t ht
  omega

/-- Witness for `c10_insert_no_validation` with both text fields empty. -/
theorem c10_insert_no_validation_witness :
    DBManager.add_task ⟨[⟨1, "a", "b", stPending, 0⟩], 2⟩ "" "" stPending 3
        false =
      ({ rows := [⟨1, "a", "b", stPending, 0⟩, ⟨2, "", "", stPending, 3⟩],
         nextId := 3 }, some 2) ∧
    2 ∉ ([⟨1, "a", "b", stPending, 0⟩] : List TaskRec).map TaskRec.id :=
  c10_insert_no_validation ⟨[⟨1, "a", "b", stPending, 0⟩], 2⟩ "" "" 3
    (by decide)

/-! ### Claim C3 -/

/-- A state with one pending task (id 1) at the head of the FIFO, used for the
C3 scenario. -/
def c3State : TMState :=
  { db := { rows := [⟨1, "u", "d", stPending, 0⟩], nextId := 2 },
    task_queue := [1] }

/-- Claim C3 counterexample: the dequeued task exists and the call completes
(returning `True`), but a storage error on the terminal status write is caught
inside `update_task_status` and swallowed, so the task is left at
'В процесі' — neither Done nor Failed. -/
theorem c3_counterexample :
    (TaskManager.process_next_task c3State ⟨false, false, true, true⟩).2 =
      true ∧
    (c3State.db.rows.find? fun t => t.id == 1).isSome = true ∧
    dbStatus (TaskManager.process_next_task c3State
        ⟨false, false, true, true⟩).1.db 1 = some stInProgress ∧
    ¬ (dbStatus (TaskManager.process_next_task c3State
          ⟨false, false, true, true⟩).1.db 1 = some stDone ∨
       dbStatus (TaskManager.process_next_task c3State
          ⟨false, false, true, true⟩).1.db 1 = some stFailed) := by decide

/-- Claim C3 (amended): when `process_next` dequeues an id whose task exists
in the Store, the lookup does not hit a storage error, and the terminal status
write commits, the task's Store status afterwards is exactly 'Виконано' or
'Помилка' — never 'Очікує' or 'В процесі'. -/
theorem c3_resolved_terminal (s : TMState) (env : PNEnv) (h : Nat)
    (rest : List Nat) (hq : s.task_queue = h :: rest)
    (hg : env.failGet = false) (hu2 : env.failUpd2 = false)
    (hex : (s.db.rows.find? fun t => t.id == h).isSome = true) :
    dbStatus (TaskManager.process_next_task s env).1.db h = some stDone ∨
    dbStatus (TaskManager.process_next_task s env).1.db h = some stFailed := by
  obtain ⟨t, ht⟩ := Option.isSome_iff_exists.mp hex
  have hpn : (TaskManager.process_next_task s env).1.db =
      (DBManager.update_task_status
        (DBManager.update_task_status s.db h stInProgress env.failUpd1).1 h
        (if env.ok then stDone else stFailed) env.failUpd2).1 := by
    unfold TaskManager.process_next_task
    rw [hq]
    simp [DBManager.get_task_by_id, hg, ht]
  rw [hpn, hu2, dbStatus_update_self]
  have h1 : ∃ st0, dbStatus
      (DBManager.update_task_status s.db h stInProgress env.failUpd1).1 h =
      some st0 := by
    cases hf : env.failUpd1
    · rw [dbStatus_update_self]
      exact ⟨stInProgress, by simp [dbStatus, ht]⟩
    · exact ⟨t.status, by simp [DBManager.update_task_status, dbStatus, ht]⟩
  obtain ⟨st0, hst0⟩ := h1
  rw [hst0]
  cases env.ok
  · right; rfl
  · left; rfl

/-- Witness for `c3_resolved_terminal` at a concrete state. -/
theorem c3_resolved_terminal_witness :
    dbStatus (TaskManager.process_next_task c3State
        ⟨false, false, false, true⟩).1.db 1 = some stDone ∨
    dbStatus (TaskManager.process_next_task c3State
        ⟨false, false, false, true⟩).1.db 1 = some stFailed :=
  c3_resolved_terminal c3State ⟨false, false, false, true⟩ 1 [] rfl rfl rfl
    (by decide)

/-! ### Claim C9 -/

theorem foldl_reportStep (l : List TaskRec) (acc : List TaskRec × List TaskRec) :
    l.foldl reportStep acc =
      (acc.1 ++ l.filter fun t => t.status == stDone,
       acc.2 ++ l.filter fun t => t.status == stFailed ||
         (t.status == stPending || t.status == stInProgress)) := by
  induction l generalizing acc with
  | nil => simp
  | cons a l ih =>
    rw [List.foldl_cons, ih]
    unfold reportStep
    cases h1 : a.status == stDone
    · cases h2 : a.status == stFailed
      · cases h3 : a.status == stPending || a.status == stInProgress
        · simp [h1, h2, h3]
        · simp [h1, h2, h3]
      · simp [h1, h2]
    · have ha : a.status = stDone := by simpa using h1
      have h2 : (a.status == stFailed) = false := by rw [ha]; decide
      have h3 : (a.status == stPending || a.status == stInProgress) = false := by
        rw [ha]; decide
      simp [h1, h2, h3]

/-- Claim C9: for a store whose statuses are among the four legal values,
`generate_report` partitions the full task list: every 'Виконано' task is in
the processed sequence, every 'Помилка'/'Очікує'/'В процесі' task is in the
unprocessed sequence, and the two lengths sum to the store's size. -/
theorem c9_report_partition (db : DB)
    (hall : ∀ t ∈ db.rows, t.status = stDone ∨ t.status = stFailed ∨
      t.status = stPending ∨ t.status = stInProgress) :
    (∀ t ∈ db.rows, t.status = stDone →
      t ∈ (TaskManager.generate_report db false).1) ∧
    (∀ t ∈ db.rows, (t.status = stFailed ∨ t.status = stPending ∨
        t.status = stInProgress) →
      t ∈ (TaskManager.generate_report db false).2) ∧
    (TaskManager.generate_report db false).1.length +
      (TaskManager.generate_report db false).2.length = db.rows.length := by
  have hrep : TaskManager.generate_report db false =
      (db.rows.filter fun t => t.status == stDone,
       db.rows.filter fun t => t.status == stFailed ||
         (t.status == stPending || t.status == stInProgress)) := by
    show db.rows.foldl reportStep ([], []) = _
    rw [foldl_reportStep]
    simp
  refine ⟨?_, ?_, ?_⟩
  · intro t ht hst
    rw [hrep]
    exact List.mem_filter.mpr ⟨ht, by simp [hst]⟩
  · intro t ht hst
    rw [hrep]
    refine List.mem_filter.mpr ⟨ht, ?_⟩
    rcases hst with h | h | h <;> simp [h]
  · rw [hrep]
    have hcongr : (db.rows.filter fun t => t.status == stFailed ||
        (t.status == stPending || t.status == stInProgress)) =
        db.rows.filter fun t => ! (t.status == stDone) := by
      apply List.filter_congr
      intro t ht
      rcases hall t ht with h | h | h | h <;> rw [h] <;> decide
    rw [hcongr]
    exact (List.length_eq_length_filter_add
      fun t : TaskRec => t.status == stDone).symm

/-- A four-task store covering all four statuses, for the C9 witness. -/
def c9db : DB :=
  ⟨[⟨1, "a", "p", stDone, 0⟩, ⟨2, "b", "q", stFailed, 0⟩,
    ⟨3, "c", "r", stPending, 0⟩, ⟨4, "d", "s", stInProgress, 0⟩], 5⟩

/-- Witness for `c9_report_partition` on a four-task store covering all four
statuses. -/
theorem c9_report_partition_witness :
    (∀ t ∈ c9db.rows, t.status = stDone →
      t ∈ (TaskManager.generate_report c9db false).1) ∧
    (∀ t ∈ c9db.rows, (t.status = stFailed ∨ t.status = stPending ∨
        t.status = stInProgress) →
      t ∈ (TaskManager.generate_report c9db false).2) ∧
    (TaskManager.generate_report c9db false).1.length +
      (TaskManager.generate_report c9db false).2.length = c9db.rows.length :=
  c9_report_partition c9db (by decide)

/-! ### Claim C6 -/

/-- Ids enqueued by one call: the id appended by a successful insert. -/
def opEnq (s : TMState) : Op → List Nat
  | .add u d now fail =>
    match DBManager.add_task s.db u d stPending now fail with
    | (_, some tid) => [tid]
    | (_, none) => []
  | .pnext _ => []

/-- Ids dequeued (popped) by one call: the head popped by `process_next`. -/
def opDeq (s : TMState) : Op → List Nat
  | .add _ _ _ _ => []
  | .pnext _ =>
    match s.task_queue with
    | [] => []
    | h :: _ => [h]

/-- All ids enqueued over a run, in order. -/
def enqTrace : TMState → List Op → List Nat
  | _, [] => []
  | s, op :: ops => opEnq s op ++ enqTrace (applyOp s op) ops

/-- All ids dequeued over a run, in order. -/
def deqTrace : TMState → List Op → List Nat
  | _, [] => []
  | s, op :: ops => opDeq s op ++ deqTrace (applyOp s op) ops

theorem queue_step (s : TMState) (op : Op) :
    s.task_queue ++ opEnq s op = opDeq s op ++ (applyOp s op).task_queue := by
  cases op with
  | add u d now fail =>
    show s.task_queue ++ opEnq s (.add u d now fail) =
      [] ++ (TaskManager.add_task s u d now fail).task_queue
    unfold TaskManager.add_task opEnq
    cases hadd : DBManager.add_task s.db u d stPending now fail with
    | mk db2 tid? => cases tid? <;> simp [hadd]
  | pnext env =>
    show s.task_queue ++ [] = opDeq s (.pnext env) ++
      (TaskManager.process_next_task s env).1.task_queue
    unfold TaskManager.process_next_task opDeq
    cases hq : s.task_queue with
    | nil => simp [hq]
    | cons h rest =>
      cases hget : DBManager.get_task_by_id s.db h env.failGet <;>
        simp [hq, hget]

theorem fifo_trace_eq (ops : List Op) (s : TMState) :
    s.task_queue ++ enqTrace s ops =
      deqTrace s ops ++ (runOps s ops).task_queue := by
  induction ops generalizing s with
  | nil => simp [enqTrace, deqTrace, runOps]
  | cons op ops ih =>
    show s.task_queue ++ (opEnq s op ++ enqTrace (applyOp s op) ops) =
      (opDeq s op ++ deqTrace (applyOp s op) ops) ++
        (runOps (applyOp s op) ops).task_queue
    rw [← List.append_assoc, queue_step s op, List.append_assoc,
      ih (applyOp s op), List.append_assoc]

/-- Claim C6: strict FIFO.  Over any interleaving of calls from any state,
the sequence of ids popped by `process_next` calls is a prefix of the initial
queue followed by the ids enqueued, in enqueue order; the remaining queue is
exactly the not-yet-popped suffix, so ids are dequeued in exactly the order
they were enqueued, with no reordering and no priority. -/
theorem c6_fifo_order (s : TMState) (ops : List Op) :
    s.task_queue ++ enqTrace s ops =
      deqTrace s ops ++ (runOps s ops).task_queue ∧
    deqTrace s ops <+: s.task_queue ++ enqTrace s ops :=
  ⟨fifo_trace_eq ops s,
   ⟨(runOps s ops).task_queue, (fifo_trace_eq ops s).symm⟩⟩

/-! ### Claim C5 -/

theorem updRows_of_not_mem (rows : List TaskRec) (i : Nat) (st : String)
    (hnot : i ∉ rows.map TaskRec.id) : updRows rows i st = rows := by
  induction rows with
  | nil => rfl
  | cons a l ih =>
    rw [List.map_cons, List.mem_cons, not_or] at hnot
    have ha : (a.id == i) = false := beq_eq_false_iff_ne.mpr (Ne.symm hnot.1)
    simp [updRows_cons, ha, ih hnot.2]

theorem nodup_ids (db : DB) (hwf : db.WF) : (db.rows.map TaskRec.id).Nodup :=
  hwf.1.imp Nat.ne_of_lt

theorem find?_id_isSome (rows : List TaskRec) (i : Nat)
    (hi : i ∈ rows.map TaskRec.id) :
    (rows.find? fun t => t.id == i).isSome = true := by
  cases hf : rows.find? fun t => t.id == i with
  | some t => rfl
  | none =>
    rw [List.find?_eq_none] at hf
    simp only [List.mem_map] at hi
    obtain ⟨t, ht, rfl⟩ := hi
    exact absurd (by simp : (t.id == t.id) = true) (by simpa using hf t ht)

theorem pIds_updRows_head (rows : List TaskRec) (h : Nat) (rest : List Nat)
    (st : String) (hnd : (rows.map TaskRec.id).Nodup)
    (hp : (rows.filter fun t => pendingish t.status).map TaskRec.id =
      h :: rest) :
    ((updRows rows h st).filter fun t => pendingish t.status).map TaskRec.id =
      if pendingish st then h :: rest else rest := by
  induction rows with
  | nil => simp at hp
  | cons a l ih =>
    rw [List.map_cons, List.nodup_cons] at hnd
    cases hpa : pendingish a.status
    · rw [List.filter_cons_of_neg (by simp [hpa])] at hp
      have hmem : h ∈ l.map TaskRec.id := by
        have hh : h ∈ (l.filter fun t => pendingish t.status).map TaskRec.id := by
          rw [hp]
          exact List.mem_cons_self _ _
        simp only [List.mem_map, List.mem_filter] at hh
        obtain ⟨t, ⟨ht, _⟩, rfl⟩ := hh
        exact List.mem_map_of_mem _ ht
      have hne : (a.id == h) = false :=
        beq_eq_false_iff_ne.mpr fun hc => hnd.1 (hc ▸ hmem)
      rw [updRows_cons, if_neg (by simp [hne]),
        List.filter_cons_of_neg (by simp [hpa]), ih hnd.2 hp]
    · rw [List.filter_cons_of_pos (by simp [hpa]), List.map_cons] at hp
      injection hp with hp1 hp2
      have hupd : updRows l h st = l :=
        updRows_of_not_mem l h st (hp1 ▸ hnd.1)
      rw [updRows_cons, if_pos (by simp [hp1]), hupd]
      cases hst : pendingish st
      · rw [List.filter_cons_of_neg (by simp [hst]), hp2]
        rfl
      · rw [List.filter_cons_of_pos (by simp [hst]), List.map_cons, hp1, hp2]
        rfl

theorem WF_add (db : DB) (u d st : String) (now : Nat) (hwf : db.WF) :
    (DBManager.add_task db u d st now false).1.WF := by
  constructor
  · show ((db.rows ++ [TaskRec.mk db.nextId u d st now]).map TaskRec.id).Pairwise
      (· < ·)
    rw [List.map_append]
    apply List.pairwise_append.mpr
    refine ⟨hwf.1, List.pairwise_singleton _ _, ?_⟩
    intro x hx y hy
    simp only [List.map_cons, List.map_nil, List.mem_singleton] at hy
    subst hy
    simp only [List.mem_map] at hx
    obtain ⟨t, ht, rfl⟩ := hx
    exact hwf.2 t ht
  · intro t ht
    rcases List.mem_append.mp ht with hmem | hmem
    · exact Nat.lt_succ_of_lt (hwf.2 t hmem)
    · rw [List.mem_singleton] at hmem
      subst hmem
      exact Nat.lt_succ_self _

theorem WF_update (db : DB) (i : Nat) (st : String) (fail : Bool)
    (hwf : db.WF) : (DBManager.update_task_status db i st fail).1.WF := by
  cases fail
  · constructor
    · show ((updRows db.rows i st).map TaskRec.id).Pairwise (· < ·)
      rw [updRows_id_map]
      exact hwf.1
    · intro t ht
      have ht2 : t ∈ updRows db.rows i st := ht
      simp only [updRows, List.mem_map] at ht2
      obtain ⟨t0, ht0, rfl⟩ := ht2
      show (if t0.id == i then { t0 with status := st } else t0).id < db.nextId
      by_cases hc : (t0.id == i) = true <;> simp [hc] <;> exact hwf.2 t0 ht0
  · exact hwf

theorem pnext_empty (s : TMState) (env : PNEnv) (hq : s.task_queue = []) :
    TaskManager.process_next_task s env = (s, false) := by
  unfold TaskManager.process_next_task
  rw [hq]

/-- The database produced by the found branch of `process_next_task`: the
status write to 'В процесі' followed by the terminal status write. -/
def resolvedDB (db : DB) (h : Nat) (env : PNEnv) : DB :=
  (DBManager.update_task_status
    (DBManager.update_task_status db h stInProgress env.failUpd1).1 h
    (if env.ok then stDone else stFailed) env.failUpd2).1

theorem pnext_found (s : TMState) (env : PNEnv) (h : Nat) (rest : List Nat)
    (hq : s.task_queue = h :: rest) (hg : env.failGet = false)
    (hex : (s.db.rows.find? fun t => t.id == h).isSome = true) :
    TaskManager.process_next_task s env =
      (⟨resolvedDB s.db h env, rest⟩, true) := by
  obtain ⟨t, ht⟩ := Option.isSome_iff_exists.mp hex
  unfold TaskManager.process_next_task resolvedDB
  rw [hq]
  simp [DBManager.get_task_by_id, hg, ht]

/-- A call is "clean" when its `process_next` Store read and terminal status
write hit no storage error (a failed insert in `add_task` changes nothing, so
`add` calls are unrestricted). -/
def Op.cleanPnext : Op → Prop
  | .add _ _ _ _ => True
  | .pnext env => env.failGet = false ∧ env.failUpd2 = false

instance (op : Op) : Decidable op.cleanPnext :=
  match op with
  | .add _ _ _ _ => .isTrue trivial
  | .pnext _ => inferInstanceAs (Decidable (_ ∧ _))

theorem inv_step (s : TMState) (op : Op) (hwf : s.db.WF)
    (hq : s.task_queue = pendingIds s.db) (hcl : op.cleanPnext) :
    (applyOp s op).db.WF ∧
      (applyOp s op).task_queue = pendingIds (applyOp s op).db := by
  cases op with
  | add u d now fail =>
    cases fail
    · refine ⟨WF_add s.db u d stPending now hwf, ?_⟩
      show s.task_queue ++ [s.db.nextId] = pendingIds
        (DBManager.add_task s.db u d stPending now false).1
      rw [hq]
      show pendingIds s.db ++ [s.db.nextId] =
        ((s.db.rows ++ [TaskRec.mk s.db.nextId u d stPending now]).filter
          fun t => pendingish t.status).map TaskRec.id
      rw [List.filter_append, List.map_append]
      congr 1
    · exact ⟨hwf, hq⟩
  | pnext env =>
    obtain ⟨hg, hu2⟩ := hcl
    cases hqe : s.task_queue with
    | nil =>
      have hres : applyOp s (.pnext env) = s := by
        show (TaskManager.process_next_task s env).1 = s
        rw [pnext_empty s env hqe]
      rw [hres]
      exact ⟨hwf, hq⟩
    | cons h rest =>
      have hp : pendingIds s.db = h :: rest := by rw [← hq, hqe]
      have hmem : h ∈ s.db.rows.map TaskRec.id := by
        have : h ∈ pendingIds s.db := by
          rw [hp]
          exact List.mem_cons_self _ _
        simp only [pendingIds, List.mem_map, List.mem_filter] at this
        obtain ⟨t, ⟨ht, _⟩, rfl⟩ := this
        exact List.mem_map_of_mem _ ht
      have hres : applyOp s (.pnext env) = ⟨resolvedDB s.db h env, rest⟩ := by
        show (TaskManager.process_next_task s env).1 = _
        rw [pnext_found s env h rest hqe hg
          (find?_id_isSome s.db.rows h hmem)]
      have hwf1 : (DBManager.update_task_status s.db h stInProgress
          env.failUpd1).1.WF := WF_update _ _ _ _ hwf
      have hp1 : pendingIds (DBManager.update_task_status s.db h stInProgress
          env.failUpd1).1 = h :: rest := by
        cases hf1 : env.failUpd1
        · show ((updRows s.db.rows h stInProgress).filter
            fun t => pendingish t.status).map TaskRec.id = h :: rest
          rw [pIds_updRows_head s.db.rows h rest stInProgress
            (nodup_ids s.db hwf) hp]
          rfl
        · exact hp
      rw [hres]
      have hwf2 : (resolvedDB s.db h env).WF := WF_update _ _ _ _ hwf1
      refine ⟨hwf2, ?_⟩
      have hrdb : resolvedDB s.db h env =
          (DBManager.update_task_status
            (DBManager.update_task_status s.db h stInProgress
              env.failUpd1).1 h
            (if env.ok then stDone else stFailed) false).1 := by
        rw [resolvedDB, hu2]
      rw [hrdb]
      show rest = ((updRows (DBManager.update_task_status s.db h stInProgress
          env.failUpd1).1.rows h
          (if env.ok then stDone else stFailed)).filter
        fun t => pendingish t.status).map TaskRec.id
      rw [pIds_updRows_head _ h rest _ (nodup_ids _ hwf1) hp1]
      cases env.ok <;> rfl

theorem inv_run (s : TMState) (ops : List Op) (hwf : s.db.WF)
    (hq : s.task_queue = pendingIds s.db)
    (hcl : ∀ op ∈ ops, op.cleanPnext) :
    (runOps s ops).db.WF ∧
      (runOps s ops).task_queue = pendingIds (runOps s ops).db := by
  induction ops generalizing s with
  | nil => exact ⟨hwf, hq⟩
  | cons op ops ih =>
    have hstep := inv_step s op hwf hq (hcl op (List.mem_cons_self _ _))
    exact ih (applyOp s op) hstep.1 hstep.2
      fun o ho => hcl o (List.mem_cons_of_mem _ ho)

/-- The calls of the C5 counterexample: one successful add, then a
`process_next` whose Store read hits a (caught) storage error. -/
def c5cexOps : List Op :=
  [.add "u" "d" 0 false, .pnext ⟨true, false, false, true⟩]

/-- Claim C5 counterexample: from the empty system, a successful `add_task`
followed by a `process_next` whose Store read hits a (caught) storage error
leaves the FIFO empty while the Store still holds one Pending task, so the
FIFO length (0) differs from the number of Pending/InProgress tasks (1). -/
theorem c5_counterexample :
    (runOps initState c5cexOps).task_queue.length = 0 ∧
    ((runOps initState c5cexOps).db.rows.filter fun t =>
      pendingish t.status).length = 1 ∧
    (0 : Nat) ≠ 1 := by decide

/-- Claim C5 (amended): for every sequence of `add_task` and `process_next`
calls from the empty system in which no `process_next` call hits a storage
error on its Store read or its terminal status write, the FIFO length equals
the number of stored tasks whose status is 'Очікує' or 'В процесі', and each
id occurs in the FIFO at most once. -/
theorem c5_queue_matches_store (ops : List Op)
    (hcl : ∀ op ∈ ops, op.cleanPnext) :
    (runOps initState ops).task_queue.length =
      ((runOps initState ops).db.rows.filter fun t =>
        pendingish t.status).length ∧
    (runOps initState ops).task_queue.Nodup := by
  have hinv := inv_run initState ops (by decide) rfl hcl
  constructor
  · rw [hinv.2]
    exact List.length_map _ _
  · rw [hinv.2]
    have hnd := nodup_ids _ hinv.1
    have hsub : List.Sublist
        (((runOps initState ops).db.rows.filter fun t =>
          pendingish t.status).map TaskRec.id)
        ((runOps initState ops).db.rows.map TaskRec.id) :=
      (List.filter_sublist _).map _
    exact hnd.sublist hsub

/-- The calls of the C5 witness: two adds and one clean `process_next`. -/
def c5wOps : List Op :=
  [.add "A" "t1" 0 false, .add "B" "t2" 1 false,
   .pnext ⟨false, false, false, true⟩]

/-- Witness for `c5_queue_matches_store` on a concrete clean run. -/
theorem c5_queue_matches_store_witness :
    (runOps initState c5wOps).task_queue.length =
      ((runOps initState c5wOps).db.rows.filter fun t =>
        pendingish t.status).length ∧
    (runOps initState c5wOps).task_queue.Nodup :=
  c5_queue_matches_store c5wOps (by decide)

/-! ### Claim C4 -/

theorem find?_append_some (rows l2 : List TaskRec) (p : TaskRec → Bool)
    (r : TaskRec) (hf : rows.find? p = some r) :
    (rows ++ l2).find? p = some r := by
  rw [find?_rows_append, hf]
  rfl

theorem find?_none_of_bound (rows : List TaskRec) (n : Nat)
    (hb : ∀ t ∈ rows, t.id < n) : (rows.find? fun t => t.id == n) = none := by
  rw [List.find?_eq_none]
  intro t ht
  have := hb t ht
  simp only [beq_iff_eq]
  omega

theorem dbStatus_append_right (db : DB) (t2 : TaskRec) (n2 : Nat) (j : Nat)
    (hsome : (dbStatus db j).isSome = true) :
    dbStatus ⟨db.rows ++ [t2], n2⟩ j = dbStatus db j := by
  unfold dbStatus at hsome ⊢
  cases hf : db.rows.find? fun t => t.id == j with
  | none =>
    rw [hf] at hsome
    simp at hsome
  | some r =>
    show ((db.rows ++ [t2]).find? fun t => t.id == j).map TaskRec.status = _
    rw [find?_append_some db.rows [t2] _ r hf]

theorem update_nextId (db : DB) (i : Nat) (st : String) (fail : Bool) :
    (DBManager.update_task_status db i st fail).1.nextId = db.nextId := by
  cases fail <;> rfl

theorem resolvedDB_nextId (db : DB) (h : Nat) (env : PNEnv) :
    (resolvedDB db h env).nextId = db.nextId := by
  unfold resolvedDB
  rw [update_nextId, update_nextId]

theorem dbStatus_resolvedDB_other (db : DB) (h : Nat) (env : PNEnv) (i : Nat)
    (hne : i ≠ h) : dbStatus (resolvedDB db h env) i = dbStatus db i := by
  unfold resolvedDB
  rw [dbStatus_update_other _ _ _ _ _ hne, dbStatus_update_other _ _ _ _ _ hne]

theorem update_rows_bound (db : DB) (i : Nat) (st : String) (fail : Bool)
    (n : Nat) (hb : ∀ t ∈ db.rows, t.id < n) :
    ∀ t ∈ (DBManager.update_task_status db i st fail).1.rows, t.id < n := by
  cases fail
  · intro t ht
    have ht2 : t ∈ updRows db.rows i st := ht
    simp only [updRows, List.mem_map] at ht2
    obtain ⟨t0, ht0, rfl⟩ := ht2
    show (if t0.id == i then { t0 with status := st } else t0).id < n
    by_cases hc : (t0.id == i) = true <;> simp [hc] <;> exact hb t0 ht0
  · exact hb

theorem resolvedDB_bound (db : DB) (h : Nat) (env : PNEnv) (n : Nat)
    (hb : ∀ t ∈ db.rows, t.id < n) :
    ∀ t ∈ (resolvedDB db h env).rows, t.id < n := by
  unfold resolvedDB
  exact update_rows_bound _ _ _ _ _ (update_rows_bound _ _ _ _ _ hb)

theorem pnext_none (s : TMState) (env : PNEnv) (h : Nat) (rest : List Nat)
    (hq : s.task_queue = h :: rest)
    (hget : DBManager.get_task_by_id s.db h env.failGet = none) :
    TaskManager.process_next_task s env = (⟨s.db, rest⟩, false) := by
  unfold TaskManager.process_next_task
  rw [hq]
  simp [hget]

theorem dbStatus_of_mem_pIds (rows : List TaskRec) (i : Nat)
    (hnd : (rows.map TaskRec.id).Nodup)
    (hi : i ∈ (rows.filter fun t => pendingish t.status).map TaskRec.id) :
    (rows.find? fun t => t.id == i).map TaskRec.status = some stPending ∨
    (rows.find? fun t => t.id == i).map TaskRec.status = some stInProgress := by
  induction rows with
  | nil => simp at hi
  | cons a l ih =>
    rw [List.map_cons, List.nodup_cons] at hnd
    cases hpa : pendingish a.status
    · rw [List.filter_cons_of_neg (by simp [hpa])] at hi
      have hmem : i ∈ l.map TaskRec.id := by
        simp only [List.mem_map, List.mem_filter] at hi
        obtain ⟨t, ⟨ht, _⟩, rfl⟩ := hi
        exact List.mem_map_of_mem _ ht
      have hne : (a.id == i) = false :=
        beq_eq_false_iff_ne.mpr fun hc => hnd.1 (hc ▸ hmem)
      simp only [List.find?_cons, hne]
      exact ih hnd.2 hi
    · rw [List.filter_cons_of_pos (by simp [hpa]), List.map_cons] at hi
      rcases List.mem_cons.mp hi with hieq | hi2
      · subst hieq
        have hsome : (a.id == a.id) = true := by simp
        simp only [List.find?_cons, hsome]
        have hst : a.status = stPending ∨ a.status = stInProgress := by
          simpa [pendingish] using hpa
        rcases hst with hh | hh
        · left
          simp [hh]
        · right
          simp [hh]
      · have hmem : i ∈ l.map TaskRec.id := by
          simp only [List.mem_map, List.mem_filter] at hi2
          obtain ⟨t, ⟨ht, _⟩, rfl⟩ := hi2
          exact List.mem_map_of_mem _ ht
        have hne : (a.id == i) = false :=
          beq_eq_false_iff_ne.mpr fun hc => hnd.1 (hc ▸ hmem)
        simp only [List.find?_cons, hne]
        exact ih hnd.2 hi2

/-- The reachability invariant used for C4 (it holds along arbitrary runs,
storage errors included): queued ids are below the AUTOINCREMENT counter,
the queue has no duplicate, every queued id's Store status is 'Очікує' or
'В процесі', and all row ids are below the counter. -/
def Jinv (s : TMState) : Prop :=
  (∀ i ∈ s.task_queue, i < s.db.nextId) ∧
  s.task_queue.Nodup ∧
  (∀ i ∈ s.task_queue, dbStatus s.db i = some stPending ∨
    dbStatus s.db i = some stInProgress) ∧
  ∀ t ∈ s.db.rows, t.id < s.db.nextId

theorem j_init (db0 : DB) (fail : Bool) (hwf : db0.WF) :
    Jinv (TaskManager.init db0 fail) := by
  cases fail
  · refine ⟨?_, ?_, ?_, hwf.2⟩
    · intro i hi
      have hi2 : i ∈ pendingIds db0 := hi
      simp only [pendingIds, List.mem_map, List.mem_filter] at hi2
      obtain ⟨t, ⟨ht, _⟩, rfl⟩ := hi2
      exact hwf.2 t ht
    · show (pendingIds db0).Nodup
      have hnd := nodup_ids db0 hwf
      have hsub : List.Sublist (pendingIds db0) (db0.rows.map TaskRec.id) :=
        (List.filter_sublist _).map _
      exact hnd.sublist hsub
    · intro i hi
      exact dbStatus_of_mem_pIds db0.rows i (nodup_ids db0 hwf) hi
  · exact ⟨fun i hi => absurd hi (List.not_mem_nil i), List.nodup_nil,
      fun i hi => absurd hi (List.not_mem_nil i), hwf.2⟩

theorem j_step (s : TMState) (op : Op) (hJ : Jinv s) : Jinv (applyOp s op) := by
  obtain ⟨ha, hb, hc, hd⟩ := hJ
  cases op with
  | add u d now fail =>
    cases fail
    · show Jinv ⟨⟨s.db.rows ++ [TaskRec.mk s.db.nextId u d stPending now],
        s.db.nextId + 1⟩, s.task_queue ++ [s.db.nextId]⟩
      refine ⟨?_, ?_, ?_, ?_⟩
      · intro i hi
        rcases List.mem_append.mp hi with hm | hm
        · exact Nat.lt_succ_of_lt (ha i hm)
        · rw [List.mem_singleton] at hm
          subst hm
          exact Nat.lt_succ_self _
      · refine hb.append (List.nodup_singleton _) ?_
        intro x hx hx2
        rw [List.mem_singleton] at hx2
        exact absurd (hx2 ▸ ha x hx) (lt_irrefl _)
      · intro i hi
        rcases List.mem_append.mp hi with hm | hm
        · have hold := hc i hm
          rcases hold with hh | hh
          · left
            rw [← hh]
            exact dbStatus_append_right s.db _ _ i (by rw [hh]; rfl)
          · right
            rw [← hh]
            exact dbStatus_append_right s.db _ _ i (by rw [hh]; rfl)
        · rw [List.mem_singleton] at hm
          subst hm
          left
          show ((s.db.rows ++ [TaskRec.mk s.db.nextId u d stPending now]).find?
            fun t => t.id == s.db.nextId).map TaskRec.status = some stPending
          rw [find?_rows_append, find?_none_of_bound s.db.rows s.db.nextId hd]
          simp [List.find?_cons]
      · intro t ht
        rcases List.mem_append.mp ht with hm | hm
        · exact Nat.lt_succ_of_lt (hd t hm)
        · rw [List.mem_singleton] at hm
          subst hm
          exact Nat.lt_succ_self _
    · exact ⟨ha, hb, hc, hd⟩
  | pnext env =>
    cases hqe : s.task_queue with
    | nil =>
      have hres : applyOp s (.pnext env) = s := by
        show (TaskManager.process_next_task s env).1 = s
        rw [pnext_empty s env hqe]
      rw [hres]
      exact ⟨ha, hb, hc, hd⟩
    | cons h rest =>
      have hbr : rest.Nodup ∧ h ∉ rest := by
        have := hqe ▸ hb
        rw [List.nodup_cons] at this
        exact ⟨this.2, this.1⟩
      cases hget : DBManager.get_task_by_id s.db h env.failGet with
      | none =>
        have hres : applyOp s (.pnext env) = ⟨s.db, rest⟩ := by
          show (TaskManager.process_next_task s env).1 = _
          rw [pnext_none s env h rest hqe hget]
        rw [hres]
        refine ⟨?_, hbr.1, ?_, hd⟩
        · intro i hi
          exact ha i (by rw [hqe]; exact List.mem_cons_of_mem _ hi)
        · intro i hi
          exact hc i (by rw [hqe]; exact List.mem_cons_of_mem _ hi)
      | some t =>
        have hgf : env.failGet = false := by
          cases hgfe : env.failGet
          · rfl
          · rw [DBManager.get_task_by_id, hgfe] at hget
            simp at hget
        have hex : (s.db.rows.find? fun tr => tr.id == h).isSome = true := by
          rw [DBManager.get_task_by_id, hgf] at hget
          simp only [if_neg Bool.false_ne_true] at hget
          rw [hget]
          rfl
        have hres : applyOp s (.pnext env) = ⟨resolvedDB s.db h env, rest⟩ := by
          show (TaskManager.process_next_task s env).1 = _
          rw [pnext_found s env h rest hqe hgf hex]
        rw [hres]
        refine ⟨?_, hbr.1, ?_, ?_⟩
        · intro i hi
          show i < (resolvedDB s.db h env).nextId
          rw [resolvedDB_nextId]
          exact ha i (by rw [hqe]; exact List.mem_cons_of_mem _ hi)
        · intro i hi
          have hne : i ≠ h := fun hc2 => hbr.2 (hc2 ▸ hi)
          show dbStatus (resolvedDB s.db h env) i = some stPending ∨
            dbStatus (resolvedDB s.db h env) i = some stInProgress
          rw [dbStatus_resolvedDB_other s.db h env i hne]
          exact hc i (by rw [hqe]; exact List.mem_cons_of_mem _ hi)
        · show ∀ t2 ∈ (resolvedDB s.db h env).rows,
            t2.id < (resolvedDB s.db h env).nextId
          rw [resolvedDB_nextId]
          exact resolvedDB_bound s.db h env s.db.nextId hd

theorem j_run (s : TMState) (ops : List Op) (hJ : Jinv s) :
    Jinv (runOps s ops) := by
  induction ops generalizing s with
  | nil => exact hJ
  | cons op ops ih => exact ih (applyOp s op) (j_step s op hJ)

theorem terminal_frozen (s : TMState) (op : Op) (hJ : Jinv s) (j : Nat)
    (hterm : dbStatus s.db j = some stDone ∨
      dbStatus s.db j = some stFailed) :
    dbStatus (applyOp s op).db j = dbStatus s.db j := by
  cases op with
  | add u d now fail =>
    cases fail
    · show dbStatus ⟨s.db.rows ++ [TaskRec.mk s.db.nextId u d stPending now],
        s.db.nextId + 1⟩ j = dbStatus s.db j
      refine dbStatus_append_right s.db _ _ j ?_
      rcases hterm with hh | hh <;> rw [hh] <;> rfl
    · rfl
  | pnext env =>
    cases hqe : s.task_queue with
    | nil =>
      have hres : applyOp s (.pnext env) = s := by
        show (TaskManager.process_next_task s env).1 = s
        rw [pnext_empty s env hqe]
      rw [hres]
    | cons h rest =>
      cases hget : DBManager.get_task_by_id s.db h env.failGet with
      | none =>
        have hres : applyOp s (.pnext env) = ⟨s.db, rest⟩ := by
          show (TaskManager.process_next_task s env).1 = _
          rw [pnext_none s env h rest hqe hget]
        rw [hres]
      | some t =>
        have hgf : env.failGet = false := by
          cases hgfe : env.failGet
          · rfl
          · rw [DBManager.get_task_by_id, hgfe] at hget
            simp at hget
        have hex : (s.db.rows.find? fun tr => tr.id == h).isSome = true := by
          rw [DBManager.get_task_by_id, hgf] at hget
          simp only [if_neg Bool.false_ne_true] at hget
          rw [hget]
          rfl
        have hne : j ≠ h := by
          intro hje
          subst hje
          have hpend := hJ.2.2.1 j (by rw [hqe]; exact List.mem_cons_self _ _)
          rcases hterm with hh | hh <;> rcases hpend with hp2 | hp2 <;>
            rw [hh] at hp2 <;> exact absurd (Option.some.inj hp2) (by decide)
        have hres : applyOp s (.pnext env) = ⟨resolvedDB s.db h env, rest⟩ := by
          show (TaskManager.process_next_task s env).1 = _
          rw [pnext_found s env h rest hqe hgf hex]
        rw [hres]
        exact dbStatus_resolvedDB_other s.db h env j hne

/-- Claim C4: statuses never regress out of a terminal state.  Starting the
TaskManager on any well-formed database and running any sequence of `add_task`
and `process_next_task` calls (storage errors and random draws arbitrary),
if a task's Store status is 'Виконано' or 'Помилка', one further call of
either operation leaves that status unchanged; and `initialize` itself writes
nothing to the Store at all. -/
theorem c4_no_terminal_regression (db0 : DB) (ops : List Op) (op : Op)
    (j : Nat) (hwf : db0.WF)
    (hterm : dbStatus (runOps (TaskManager.init db0 false) ops).db j =
        some stDone ∨
      dbStatus (runOps (TaskManager.init db0 false) ops).db j =
        some stFailed) :
    dbStatus (applyOp (runOps (TaskManager.init db0 false) ops) op).db j =
      dbStatus (runOps (TaskManager.init db0 false) ops).db j ∧
    (TaskManager.init db0 false).db = db0 :=
  ⟨terminal_frozen (runOps (TaskManager.init db0 false) ops) op
    (j_run (TaskManager.init db0 false) ops (j_init db0 false hwf)) j hterm,
   rfl⟩

/-- A store holding one finished task, for the C4 witness. -/
def c4db : DB := ⟨[⟨1, "a", "b", stDone, 0⟩], 2⟩

/-- Witness for `c4_no_terminal_regression`: a Done task stays Done across a
further `add_task` call. -/
theorem c4_no_terminal_regression_witness :
    dbStatus (applyOp (runOps (TaskManager.init c4db false) [])
        (.add "x" "y" 5 false)).db 1 =
      dbStatus (runOps (TaskManager.init c4db false) []).db 1 ∧
    (TaskManager.init c4db false).db = c4db :=
  c4_no_terminal_regression c4db [] (.add "x" "y" 5 false) 1 (by decide)
    (Or.inl (by decide))
